import Mathlib

/-!
Verification of the `graph` package of `cesto93/langgraphgo`: a minimal
single-path pipeline engine.  A `MessageGraph T` holds named step functions
(`nodes`), an ordered list of directed `edges`, and an `entryPoint` name.
`Compile` checks only that the entry point is set; `Invoke` walks the graph
from the entry point until the sentinel name `END` is reached, threading a
state value of type `T` through each node's step function.

The Go source is embedded shallowly:
* the Go node map `map[string]Node[T]` becomes a function
  `String → Option (Node T)` (lookup with overwrite-on-insert, exactly the
  observable behaviour of the Go map);
* a Go step function `func(ctx, T) (T, error)` becomes `T → T × Option String`
  (the `String` being the message of a non-nil error; the context parameter
  carries no information used by the engine and is dropped);
* the four error values become the inductive `GError`, with `GError.message`
  reproducing the exact formatted strings built with `fmt.Errorf`;
* the unbounded `for` loop of `Invoke` becomes the fuel-indexed `invokeLoop`;
  `none` means the fuel ran out before the loop finished, `some (s, none)`
  a normal return, and `some (s, some e)` a return with error `e`.
-/

namespace LangGraph

/-- The special constant `END` represents the end node in the graph. -/
def END : String := "END"

/-- A node in the message graph: a name and the step function associated
with it (Go: `Node[T]`). -/
structure Node (T : Type) where
  Name : String
  Function : T → T × Option String

/-- An edge in the message graph (Go: `Edge`). -/
structure Edge where
  From : String
  To : String
deriving DecidableEq, Repr

/-- The mutable graph builder (Go: `MessageGraph[T]`). -/
structure MessageGraph (T : Type) where
  nodes : String → Option (Node T)
  edges : List Edge
  entryPoint : String

/-- The builder method `AddNode` inserts or overwrites the node stored under `name`
(Go: `MessageGraph.AddNode`, a plain map assignment). -/
def AddNode {T : Type} (g : MessageGraph T) (name : String)
    (fn : T → T × Option String) : MessageGraph T :=
  MessageGraph.mk (fun k => if k = name then some (Node.mk name fn) else g.nodes k)
    g.edges g.entryPoint

/-- The builder method `AddEdge` appends an edge to the edge sequence, with no existence check
(Go: `MessageGraph.AddEdge`, a slice append). -/
def AddEdge {T : Type} (g : MessageGraph T) (From To : String) : MessageGraph T :=
  MessageGraph.mk g.nodes (g.edges ++ [Edge.mk From To]) g.entryPoint

/-- The builder method `SetEntryPoint` records the entry node name; last call wins
(Go: `MessageGraph.SetEntryPoint`). -/
def SetEntryPoint {T : Type} (g : MessageGraph T) (name : String) : MessageGraph T :=
  MessageGraph.mk g.nodes g.edges name

/-- The constructor `NewMessageGraph` creates an empty graph and auto-registers the sentinel
`END` with an identity step (Go: `NewMessageGraph`). -/
def NewMessageGraph (T : Type) : MessageGraph T :=
  AddNode (MessageGraph.mk (fun _ => none) [] "") END (fun state => (state, none))

/-- The errors the engine can produce.  `entryPointNotSet`, `nodeNotFound` and
`noOutgoingEdge` correspond to the sentinel `errors.New` values wrapped by
`fmt.Errorf`; `stepFailure` corresponds to the `"error in node %s: %w"` wrap
of a step function's own error. -/
inductive GError where
  | entryPointNotSet
  | nodeNotFound (name : String)
  | noOutgoingEdge (name : String)
  | stepFailure (name : String) (cause : String)
deriving DecidableEq, Repr

/-- The formatted message of each error, exactly as produced by the Go code
(`errors.New` text plus the `fmt.Errorf` `"%w: %s"` / `"error in node %s: %w"`
formats). -/
def GError.message : GError → String
  | .entryPointNotSet => "entry point not set"
  | .nodeNotFound name => "node not found: " ++ name
  | .noOutgoingEdge name => "no outgoing edge found for node: " ++ name
  | .stepFailure name cause => "error in node " ++ name ++ ": " ++ cause

/-- A compiled graph handle referencing its `MessageGraph` (Go: `Runnable[T]`). -/
structure Runnable (T : Type) where
  graph : MessageGraph T

/-- Compilation (`Compile`) checks only that the entry point is non-empty and wraps the
graph in a `Runnable` (Go: `MessageGraph.Compile`). -/
def Compile {T : Type} (g : MessageGraph T) : Except GError (Runnable T) :=
  if g.entryPoint = "" then Except.error GError.entryPointNotSet
  else Except.ok (Runnable.mk g)

/-- One-to-one embedding of the `for` loop of `Runnable.Invoke`, indexed by
fuel.  Each loop iteration: terminal check against `END` first, then node
lookup (`nodeNotFound` on a miss), then the step call with the state
overwritten by its result before the error check (`stepFailure` on error),
then a first-match scan of the edge list in declaration order
(`noOutgoingEdge` when no edge leaves the current node). -/
def invokeLoop {T : Type} (g : MessageGraph T) :
    Nat → String → T → Option (T × Option GError)
  | 0, _, _ => none
  | fuel + 1, currentNode, state =>
    if currentNode = END then some (state, none)
    else
      match g.nodes currentNode with
      | none => some (state, some (GError.nodeNotFound currentNode))
      | some node =>
        match node.Function state with
        | (state', some cause) => some (state', some (GError.stepFailure currentNode cause))
        | (state', none) =>
          match g.edges.find? (fun e => e.From == currentNode) with
          | some edge => invokeLoop g fuel edge.To state'
          | none => some (state', some (GError.noOutgoingEdge currentNode))

/-- The method `Invoke` runs the execution loop from the entry point
(Go: `Runnable.Invoke`); `fuel` bounds the number of loop iterations. -/
def Invoke {T : Type} (r : Runnable T) (fuel : Nat) (state : T) :
    Option (T × Option GError) :=
  invokeLoop r.graph fuel r.graph.entryPoint state

/-- A builder operation on a graph, for quantifying over arbitrary build
sequences (`AddNode` / `AddEdge` / `SetEntryPoint`). -/
inductive Op (T : Type) where
  | addNode (name : String) (fn : T → T × Option String)
  | addEdge (From To : String)
  | setEntryPoint (name : String)

/-- Apply one builder operation. -/
def applyOp {T : Type} (g : MessageGraph T) : Op T → MessageGraph T
  | .addNode name fn => AddNode g name fn
  | .addEdge From To => AddEdge g From To
  | .setEntryPoint name => SetEntryPoint g name

/-- Apply a sequence of builder operations in order. -/
def applyOps {T : Type} (g : MessageGraph T) (ops : List (Op T)) : MessageGraph T :=
  ops.foldl applyOp g

/-! ### Helper lemmas -/

/-- Overwriting the sentinel node changes no lookup at a non-sentinel name. -/
theorem AddNode_nodes_ne {T : Type} (g : MessageGraph T) (name k : String)
    (fn : T → T × Option String) (h : k ≠ name) :
    (AddNode g name fn).nodes k = g.nodes k := by
  simp [AddNode, h]

/-- The loop `invokeLoop` never consults the node stored under `END`: overwriting the
sentinel's step leaves every run of the loop unchanged. -/
theorem invokeLoop_AddNode_END {T : Type} (g : MessageGraph T)
    (f : T → T × Option String) :
    ∀ (fuel : Nat) (cur : String) (s : T),
      invokeLoop (AddNode g END f) fuel cur s = invokeLoop g fuel cur s := by
  intro fuel
  induction fuel with
  | zero => intro cur s; rfl
  | succ n ih =>
    intro cur s
    by_cases hc : cur = END
    · simp [invokeLoop, hc]
    · have hn : (AddNode g END f).nodes cur = g.nodes cur :=
        AddNode_nodes_ne g END cur f hc
      have he : (AddNode g END f).edges = g.edges := rfl
      rcases hnode : g.nodes cur with _ | node
      · simp [invokeLoop, if_neg hc, hn, hnode]
      · rcases hfn : node.Function s with ⟨s', _ | cause⟩
        · rcases hfind : g.edges.find? (fun e => e.From == cur) with _ | edge
          · simp [invokeLoop, if_neg hc, hn, he, hnode, hfn, hfind]
          · simp only [invokeLoop, if_neg hc, hn, he, hnode, hfn, hfind]
            exact ih edge.To s'
        · simp [invokeLoop, if_neg hc, hn, hnode, hfn]

/-- Every builder operation keeps the sentinel in the node mapping. -/
theorem applyOps_END_isSome {T : Type} :
    ∀ (ops : List (Op T)) (g : MessageGraph T),
      (g.nodes END).isSome = true → ((applyOps g ops).nodes END).isSome = true := by
  intro ops
  induction ops with
  | nil => intro g h; exact h
  | cons op rest ih =>
    intro g h
    refine ih (applyOp g op) ?_
    cases op with
    | addNode name fn =>
      by_cases hk : END = name <;> simp [applyOp, AddNode, hk, h]
    | addEdge From To => exact h
    | setEntryPoint name => exact h

/-! ### Claims -/

/-- C2: `Compile` fails with `entryPointNotSet` exactly when no (non-empty)
entry point is stored, regardless of which nodes and edges are registered;
otherwise it returns a `Runnable` referencing the very same graph, with no
further validation. -/
theorem Compile_checks_only_entryPoint {T : Type} (g : MessageGraph T) :
    (g.entryPoint = "" → Compile g = Except.error GError.entryPointNotSet) ∧
    (g.entryPoint ≠ "" → Compile g = Except.ok (Runnable.mk g)) := by
  constructor <;> intro h <;> simp [Compile, h]

/-- Witness for C2: a graph with nodes and edges but no entry point fails to
compile; setting entry point `"node1"` makes `Compile` succeed. -/
theorem Compile_checks_only_entryPoint_witness :
    Compile (AddEdge (NewMessageGraph Nat) "a" "b") = Except.error GError.entryPointNotSet ∧
    Compile (SetEntryPoint (NewMessageGraph Nat) "node1") =
      Except.ok (Runnable.mk (SetEntryPoint (NewMessageGraph Nat) "node1")) :=
  ⟨(Compile_checks_only_entryPoint (AddEdge (NewMessageGraph Nat) "a" "b")).1 rfl,
   (Compile_checks_only_entryPoint (SetEntryPoint (NewMessageGraph Nat) "node1")).2
     (by decide)⟩

/-- C3: the sentinel's registered step is never executed: overwriting the
node stored under `END` with an arbitrary (e.g. failing) step function
changes the result of `Invoke` for no fuel bound and no initial state. -/
theorem Invoke_independent_of_sentinel_step {T : Type} (g : MessageGraph T)
    (f : T → T × Option String) (fuel : Nat) (state : T) :
    Invoke (Runnable.mk (AddNode g END f)) fuel state =
      Invoke (Runnable.mk g) fuel state :=
  invokeLoop_AddNode_END g f fuel g.entryPoint state

/-- C8: registering a node name twice is last-write-wins: adding `f` then
`g'` under the same name yields exactly the graph obtained by adding `g'`
alone, with no error possible. -/
theorem AddNode_last_write_wins {T : Type} (g : MessageGraph T) (name : String)
    (f g' : T → T × Option String) :
    AddNode (AddNode g name f) name g' = AddNode g name g' := by
  unfold AddNode
  congr 1
  funext k
  by_cases h : k = name <;> simp [h]

/-- C9: the sentinel is registered with an identity step at construction,
and no sequence of builder operations can remove it from the node mapping. -/
theorem sentinel_always_present {T : Type} :
    (NewMessageGraph T).nodes END = some (Node.mk END (fun state => (state, none))) ∧
    ∀ ops : List (Op T), ((applyOps (NewMessageGraph T) ops).nodes END).isSome = true := by
  constructor
  · simp [NewMessageGraph, AddNode]
  · intro ops
    refine applyOps_END_isSome ops (NewMessageGraph T) ?_
    simp [NewMessageGraph, AddNode]

/-- C10: setting the entry point to the empty string is indistinguishable
from never setting it, even after an earlier `SetEntryPoint` with a non-empty
name: `Compile` fails with `entryPointNotSet`, because the only check is
whether the stored name equals `""`. -/
theorem SetEntryPoint_empty_fails {T : Type} (g : MessageGraph T) (prior : String) :
    Compile (SetEntryPoint (SetEntryPoint g prior) "") =
      Except.error GError.entryPointNotSet := by
  simp [Compile, SetEntryPoint]

/-- Appending an edge out of a node that already has an earlier-declared
outgoing edge changes no first-match edge lookup. -/
theorem find?_append_dead {T : Type} (g : MessageGraph T) (a b : String)
    (h : (g.edges.find? (fun e => e.From == a)).isSome = true) (cur : String) :
    (g.edges ++ [Edge.mk a b]).find? (fun e => e.From == cur) =
      g.edges.find? (fun e => e.From == cur) := by
  rw [List.find?_append]
  rcases hfind : g.edges.find? (fun e => e.From == cur) with _ | e
  · rw [hfind]
    by_cases hac : a = cur
    · rw [hac] at h
      rw [hfind] at h
      simp at h
    · have hb : (a == cur) = false := by simp [hac]
      simp [List.find?, hb]
  · rw [hfind]
    rfl

/-- The loop `invokeLoop` is unchanged by appending an edge from a node that already
has an outgoing edge: only the first matching edge is ever taken. -/
theorem invokeLoop_AddEdge_dead {T : Type} (g : MessageGraph T) (a b : String)
    (h : (g.edges.find? (fun e => e.From == a)).isSome = true) :
    ∀ (fuel : Nat) (cur : String) (s : T),
      invokeLoop (AddEdge g a b) fuel cur s = invokeLoop g fuel cur s := by
  intro fuel
  induction fuel with
  | zero => intro cur s; rfl
  | succ n ih =>
    intro cur s
    by_cases hc : cur = END
    · simp [invokeLoop, hc]
    · have hn : (AddEdge g a b).nodes cur = g.nodes cur := rfl
      have he : (AddEdge g a b).edges = g.edges ++ [Edge.mk a b] := rfl
      rcases hnode : g.nodes cur with _ | node
      · simp [invokeLoop, if_neg hc, hn, hnode]
      · rcases hfn : node.Function s with ⟨s', _ | cause⟩
        · rcases hfind : g.edges.find? (fun e => e.From == cur) with _ | edge
          · simp [invokeLoop, if_neg hc, hn, he, hnode, hfn, hfind,
              find?_append_dead g a b h cur]
          · simp only [invokeLoop, if_neg hc, hn, he, hnode, hfn, hfind,
              find?_append_dead g a b h cur]
            exact ih edge.To s'
        · simp [invokeLoop, if_neg hc, hn, hnode, hfn]

/-- C4: when the loop reaches a node whose step function fails, it aborts
immediately with a `stepFailure` wrapping the node name and the underlying
cause, whose message reads `"error in node <name>: <underlying>"`, and the
state returned is exactly the value the failing step returned alongside its
error. -/
theorem Invoke_step_failure {T : Type} (g : MessageGraph T) (n : String)
    (node : Node T) (s s' : T) (cause : String) (fuel : Nat)
    (hne : n ≠ END) (hnode : g.nodes n = some node)
    (hfn : node.Function s = (s', some cause)) :
    invokeLoop g (fuel + 1) n s = some (s', some (GError.stepFailure n cause)) ∧
    (GError.stepFailure n cause).message = "error in node " ++ n ++ ": " ++ cause := by
  constructor
  · simp [invokeLoop, if_neg hne, hnode, hfn]
  · rfl

/-- The failing-step graph of the test suite: `node1` returns the empty state
together with the error `"node error"`; edge `node1→END`; entry `node1`. -/
def failGraph : MessageGraph (List String) :=
  SetEntryPoint (AddEdge (AddNode (NewMessageGraph (List String)) "node1"
    (fun _ => ([], some "node error"))) "node1" END) "node1"

/-- Witness for C4: invoking the failing-step graph returns the step's own
returned state (here `[]`, not the prior state) with the wrapped error, whose
message is `"error in node node1: node error"`. -/
theorem Invoke_step_failure_witness :
    Invoke (Runnable.mk failGraph) 1 ["Input"] =
      some ([], some (GError.stepFailure "node1" "node error")) ∧
    (GError.stepFailure "node1" "node error").message =
      "error in node node1: node error" :=
  Invoke_step_failure failGraph "node1"
    (Node.mk "node1" (fun _ => ([], some "node error"))) ["Input"] [] "node error" 0
    (by decide) rfl rfl

/-- C5: `AddEdge` succeeds for a dangling target (it only appends to the
edge sequence), `Compile` still succeeds (given an entry point), and the run
fails with `nodeNotFound` carrying the missing name exactly when the loop
reaches a name with no registered node, returning the most recent state. -/
theorem Invoke_dangling_edge {T : Type} (g : MessageGraph T) (From To n : String)
    (s : T) (fuel : Nat)
    (hep : (AddEdge g From To).entryPoint ≠ "")
    (hn : (AddEdge g From To).nodes n = none) (hne : n ≠ END) :
    (AddEdge g From To).edges = g.edges ++ [Edge.mk From To] ∧
    Compile (AddEdge g From To) = Except.ok (Runnable.mk (AddEdge g From To)) ∧
    invokeLoop (AddEdge g From To) (fuel + 1) n s =
      some (s, some (GError.nodeNotFound n)) := by
  refine ⟨rfl, ?_, ?_⟩
  · simp [Compile, hep]
  · simp [invokeLoop, if_neg hne, hn]

/-- The dangling-edge graph of the test suite: only `node1` is registered,
with an edge `node1→node2` whose target does not exist; entry `node1`. -/
def danglingGraph : MessageGraph (List String) :=
  SetEntryPoint (AddEdge (AddNode (NewMessageGraph (List String)) "node1"
    (fun s => (s, none))) "node1" "node2") "node1"

/-- Witness for C5: on the dangling-edge graph, compilation succeeds and the
loop, reaching the unregistered name `node2`, fails with
`nodeNotFound "node2"` and returns the state it held. -/
theorem Invoke_dangling_edge_witness :
    (AddEdge (SetEntryPoint (AddNode (NewMessageGraph (List String)) "node1"
        (fun s => (s, none))) "node1") "node1" "node2").edges =
      [Edge.mk "node1" "node2"] ∧
    Compile (AddEdge (SetEntryPoint (AddNode (NewMessageGraph (List String)) "node1"
        (fun s => (s, none))) "node1") "node1" "node2") =
      Except.ok (Runnable.mk (AddEdge (SetEntryPoint (AddNode
        (NewMessageGraph (List String)) "node1" (fun s => (s, none))) "node1")
        "node1" "node2")) ∧
    invokeLoop (AddEdge (SetEntryPoint (AddNode (NewMessageGraph (List String))
        "node1" (fun s => (s, none))) "node1") "node1" "node2") 1 "node2" ["Input"] =
      some (["Input"], some (GError.nodeNotFound "node2")) :=
  Invoke_dangling_edge (SetEntryPoint (AddNode (NewMessageGraph (List String))
      "node1" (fun s => (s, none))) "node1") "node1" "node2" "node2" ["Input"] 0
    (by decide) rfl (by decide)

/-- C6: a non-terminal node with no outgoing edge fails the run with
`noOutgoingEdge` carrying that node's name, after its step has succeeded. -/
theorem Invoke_no_outgoing_edge {T : Type} (g : MessageGraph T) (n : String)
    (node : Node T) (s s' : T) (fuel : Nat)
    (hne : n ≠ END) (hnode : g.nodes n = some node)
    (hfn : node.Function s = (s', none))
    (hfind : g.edges.find? (fun e => e.From == n) = none) :
    invokeLoop g (fuel + 1) n s = some (s', some (GError.noOutgoingEdge n)) := by
  simp [invokeLoop, if_neg hne, hnode, hfn, hfind]

/-- The edgeless graph of the test suite: a single node `node1` with no
outgoing edges, entry `node1`. -/
def singleNodeGraph : MessageGraph (List String) :=
  SetEntryPoint (AddNode (NewMessageGraph (List String)) "node1"
    (fun s => (s, none))) "node1"

/-- Witness for C6: invoking the single-node edgeless graph fails with
`noOutgoingEdge "node1"`. -/
theorem Invoke_no_outgoing_edge_witness :
    Invoke (Runnable.mk singleNodeGraph) 1 ["Input"] =
      some (["Input"], some (GError.noOutgoingEdge "node1")) :=
  Invoke_no_outgoing_edge singleNodeGraph "node1"
    (Node.mk "node1" (fun s => (s, none))) ["Input"] ["Input"] 0
    (by decide) rfl rfl rfl

/-- C7: on a successful iteration the loop follows the first edge (in
declaration order) whose `From` equals the current node; consequently,
appending a further edge out of a node that already has an earlier-declared
outgoing edge never changes the result of `Invoke` — later edges from that
node are dead configuration. -/
theorem Invoke_first_matching_edge {T : Type} (g : MessageGraph T) (a b : String)
    (h : (g.edges.find? (fun e => e.From == a)).isSome = true) :
    (∀ (fuel : Nat) (n : String) (node : Node T) (s s' : T) (e : Edge),
        n ≠ END → g.nodes n = some node → node.Function s = (s', none) →
        g.edges.find? (fun e => e.From == n) = some e →
        invokeLoop g (fuel + 1) n s = invokeLoop g fuel e.To s') ∧
    (∀ (fuel : Nat) (state : T),
        Invoke (Runnable.mk (AddEdge g a b)) fuel state =
          Invoke (Runnable.mk g) fuel state) := by
  constructor
  · intro fuel n node s s' e hne hnode hfn hfind
    simp [invokeLoop, if_neg hne, hnode, hfn, hfind]
  · intro fuel state
    exact invokeLoop_AddEdge_dead g a b h fuel g.entryPoint state

/-- Witness for C7: on the single-step graph `node1→END`, appending a second
edge `node1→"dead"` leaves the result of `Invoke` unchanged, and the first
iteration transitions along the first-declared edge `node1→END`. -/
theorem Invoke_first_matching_edge_witness :
    invokeLoop (AddEdge singleNodeGraph "node1" END) 1 "node1" ["Input"] =
      invokeLoop (AddEdge singleNodeGraph "node1" END) 0 END ["Input"] ∧
    Invoke (Runnable.mk (AddEdge (AddEdge singleNodeGraph "node1" END)
        "node1" "dead")) 2 ["Input"] =
      Invoke (Runnable.mk (AddEdge singleNodeGraph "node1" END)) 2 ["Input"] :=
  ⟨(Invoke_first_matching_edge (AddEdge singleNodeGraph "node1" END) "node1" "dead"
      (by decide)).1 0 "node1" (Node.mk "node1" (fun s => (s, none)))
      ["Input"] ["Input"] (Edge.mk "node1" END) (by decide) rfl rfl rfl,
   (Invoke_first_matching_edge (AddEdge singleNodeGraph "node1" END) "node1" "dead"
      (by decide)).2 2 ["Input"]⟩

/-! ### Linear chains -/

/-- Lift a pure state transformer to the engine's step-function type: a step
that never fails. -/
def pureStep {T : Type} (f : T → T) : T → T × Option String :=
  fun s => (f s, none)

/-- Register every step of a chain as a node, in order. -/
def addChainNodes {T : Type} (g : MessageGraph T)
    (steps : List (String × (T → T))) : MessageGraph T :=
  steps.foldl (fun g p => AddNode g p.1 (pureStep p.2)) g

/-- The edges of a linear chain: each name points to the next, the last one
to the sentinel `END`. -/
def chainEdges : List String → List Edge
  | [] => []
  | [a] => [Edge.mk a END]
  | a :: b :: rest => Edge.mk a b :: chainEdges (b :: rest)

/-- Register a list of edges through `AddEdge`, in order. -/
def addEdgeList {T : Type} (g : MessageGraph T) (l : List Edge) : MessageGraph T :=
  l.foldl (fun g e => AddEdge g e.From e.To) g

/-- A linear chain entry→n₀→…→END built through the public builder API:
all the nodes, the consecutive edges plus the final edge to `END`, and the
first name as entry point. -/
def chainGraph {T : Type} (n₀ : String) (f₀ : T → T)
    (rest : List (String × (T → T))) : MessageGraph T :=
  SetEntryPoint (addEdgeList (addChainNodes (NewMessageGraph T) ((n₀, f₀) :: rest))
    (chainEdges (((n₀, f₀) :: rest).map Prod.fst))) n₀

theorem addEdgeList_nodes {T : Type} :
    ∀ (l : List Edge) (g : MessageGraph T), (addEdgeList g l).nodes = g.nodes := by
  intro l
  induction l with
  | nil => intro g; rfl
  | cons e tl ih => intro g; exact ih (AddEdge g e.From e.To)

theorem addEdgeList_edges {T : Type} :
    ∀ (l : List Edge) (g : MessageGraph T), (addEdgeList g l).edges = g.edges ++ l := by
  intro l
  induction l with
  | nil => intro g; simp [addEdgeList]
  | cons e tl ih =>
    intro g
    show (addEdgeList (AddEdge g e.From e.To) tl).edges = g.edges ++ e :: tl
    rw [ih]
    show (g.edges ++ [Edge.mk e.From e.To]) ++ tl = g.edges ++ e :: tl
    rw [List.append_assoc]
    rfl

theorem addChainNodes_edges {T : Type} :
    ∀ (steps : List (String × (T → T))) (g : MessageGraph T),
      (addChainNodes g steps).edges = g.edges := by
  intro steps
  induction steps with
  | nil => intro g; rfl
  | cons p tl ih => intro g; exact ih (AddNode g p.1 (pureStep p.2))

/-- Names not registered by `addChainNodes` resolve as before. -/
theorem addChainNodes_nodes_notmem {T : Type} :
    ∀ (steps : List (String × (T → T))) (g : MessageGraph T) (n : String),
      n ∉ steps.map Prod.fst → (addChainNodes g steps).nodes n = g.nodes n := by
  intro steps
  induction steps with
  | nil => intro g n _; rfl
  | cons p tl ih =>
    intro g n h
    simp only [List.map_cons, List.mem_cons, not_or] at h
    show (addChainNodes (AddNode g p.1 (pureStep p.2)) tl).nodes n = g.nodes n
    rw [ih _ n h.2, AddNode_nodes_ne g p.1 n (pureStep p.2) h.1]

/-- With distinct names, each chain member resolves to its own lifted step. -/
theorem addChainNodes_nodes_mem {T : Type} :
    ∀ (steps : List (String × (T → T))) (g : MessageGraph T) (n : String) (f : T → T),
      (steps.map Prod.fst).Nodup → (n, f) ∈ steps →
      (addChainNodes g steps).nodes n = some (Node.mk n (pureStep f)) := by
  intro steps
  induction steps with
  | nil => intro g n f _ hmem; simp at hmem
  | cons p tl ih =>
    intro g n f hnd hmem
    rw [List.map_cons, List.nodup_cons] at hnd
    rcases List.mem_cons.mp hmem with heq | hmem'
    · have hp : p = (n, f) := heq.symm
      subst hp
      show (addChainNodes (AddNode g n (pureStep f)) tl).nodes n = some (Node.mk n (pureStep f))
      rw [addChainNodes_nodes_notmem tl _ n hnd.1]
      simp [AddNode]
    · exact ih (AddNode g p.1 (pureStep p.2)) n f hnd.2 hmem'

theorem chainGraph_entryPoint {T : Type} (n₀ : String) (f₀ : T → T)
    (rest : List (String × (T → T))) :
    (chainGraph n₀ f₀ rest).entryPoint = n₀ := rfl

theorem chainGraph_nodes {T : Type} (n₀ : String) (f₀ : T → T)
    (rest : List (String × (T → T))) :
    (chainGraph n₀ f₀ rest).nodes =
      (addChainNodes (NewMessageGraph T) ((n₀, f₀) :: rest)).nodes :=
  addEdgeList_nodes (chainEdges (((n₀, f₀) :: rest).map Prod.fst))
    (addChainNodes (NewMessageGraph T) ((n₀, f₀) :: rest))

theorem chainGraph_edges {T : Type} (n₀ : String) (f₀ : T → T)
    (rest : List (String × (T → T))) :
    (chainGraph n₀ f₀ rest).edges = chainEdges (((n₀, f₀) :: rest).map Prod.fst) := by
  show (addEdgeList (addChainNodes (NewMessageGraph T) ((n₀, f₀) :: rest))
      (chainEdges (((n₀, f₀) :: rest).map Prod.fst))).edges = _
  rw [addEdgeList_edges, addChainNodes_edges]
  rfl

theorem chainEdges_cons_cons (a : String) (l : List String) (hl : l ≠ []) :
    chainEdges (a :: l) = Edge.mk a (l.head hl) :: chainEdges l := by
  cases l with
  | nil => exact absurd rfl hl
  | cons b r => rfl

/-- In the edge list of a chain with distinct names, the first (and only)
edge leaving `n` points to the next name, or to `END` for the last name. -/
theorem chainEdges_find? :
    ∀ (pre : List String) (n : String) (rest : List String),
      (pre ++ n :: rest).Nodup →
      (chainEdges (pre ++ n :: rest)).find? (fun e => e.From == n) =
        some (Edge.mk n (match rest with | [] => END | b :: _ => b)) := by
  intro pre
  induction pre with
  | nil =>
    intro n rest _
    cases rest with
    | nil => simp [chainEdges, List.find?]
    | cons b r =>
      rw [List.nil_append, chainEdges_cons_cons n (b :: r) (by simp)]
      rw [List.find?_cons_of_pos _ (by simp)]
      rfl
  | cons a pre ih =>
    intro n rest hnd
    rw [List.cons_append] at hnd ⊢
    obtain ⟨hanotin, hnd'⟩ := List.nodup_cons.mp hnd
    have han : a ≠ n := by
      intro h
      rw [h] at hanotin
      exact hanotin (List.mem_append_right _ (List.mem_cons_self _ _))
    have hne : pre ++ n :: rest ≠ [] := by simp
    rw [chainEdges_cons_cons a _ hne, List.find?_cons_of_neg _ (by simp [han]),
      ih n rest hnd']

/-- One successful iteration of the loop on a chain: from the node `(n, f)`
the loop applies `f` and moves to the next name (or to `END` at the end). -/
theorem chainGraph_step {T : Type} (n₀ : String) (f₀ : T → T)
    (full pre suf : List (String × (T → T))) (n : String) (f : T → T)
    (hnd : (((n₀, f₀) :: full).map Prod.fst).Nodup)
    (hEND : END ∉ ((n₀, f₀) :: full).map Prod.fst)
    (hsplit : (n₀, f₀) :: full = pre ++ (n, f) :: suf)
    (fuel : Nat) (s : T) :
    invokeLoop (chainGraph n₀ f₀ full) (fuel + 1) n s =
      invokeLoop (chainGraph n₀ f₀ full) fuel
        (match suf with | [] => END | q :: _ => q.1) (f s) := by
  have hmem : (n, f) ∈ (n₀, f₀) :: full := by
    rw [hsplit]
    exact List.mem_append_right _ (List.mem_cons_self _ _)
  have hnE : n ≠ END := by
    intro h
    rw [← h] at hEND
    exact hEND (List.mem_map_of_mem Prod.fst hmem)
  have hnode : (chainGraph n₀ f₀ full).nodes n = some (Node.mk n (pureStep f)) := by
    rw [chainGraph_nodes]
    exact addChainNodes_nodes_mem ((n₀, f₀) :: full) (NewMessageGraph T) n f hnd hmem
  have hnames : ((n₀, f₀) :: full).map Prod.fst =
      pre.map Prod.fst ++ n :: suf.map Prod.fst := by
    rw [hsplit]
    simp
  have hfind : (chainGraph n₀ f₀ full).edges.find? (fun e => e.From == n) =
      some (Edge.mk n (match suf.map Prod.fst with | [] => END | b :: _ => b)) := by
    rw [chainGraph_edges, hnames]
    exact chainEdges_find? (pre.map Prod.fst) n (suf.map Prod.fst) (hnames ▸ hnd)
  simp only [invokeLoop, if_neg hnE, hnode, pureStep, hfind]
  cases suf <;> rfl

/-- Running the loop from any suffix of a chain folds the remaining step
functions over the state, in order, and ends without error. -/
theorem invokeLoop_chainGraph {T : Type} (n₀ : String) (f₀ : T → T)
    (full : List (String × (T → T)))
    (hnd : (((n₀, f₀) :: full).map Prod.fst).Nodup)
    (hEND : END ∉ ((n₀, f₀) :: full).map Prod.fst) :
    ∀ (suf pre : List (String × (T → T))) (n : String) (f : T → T) (s : T),
      (n₀, f₀) :: full = pre ++ (n, f) :: suf →
      invokeLoop (chainGraph n₀ f₀ full) (suf.length + 2) n s =
        some (((n, f) :: suf).foldl (fun s p => p.2 s) s, none) := by
  intro suf
  induction suf with
  | nil =>
    intro pre n f s hsplit
    refine (chainGraph_step n₀ f₀ full pre [] n f hnd hEND hsplit 1 s).trans ?_
    simp [invokeLoop]
  | cons q suf ih =>
    intro pre n f s hsplit
    refine (chainGraph_step n₀ f₀ full pre (q :: suf) n f hnd hEND hsplit
      (suf.length + 2) s).trans ?_
    have hsplit' : (n₀, f₀) :: full = (pre ++ [(n, f)]) ++ (q.1, q.2) :: suf := by
      rw [hsplit]
      simp
    exact ih (pre ++ [(n, f)]) q.1 q.2 (f s) hsplit'

/-- C1: on a linear chain entry→n₀→…→END with pairwise-distinct non-sentinel
names, `Compile` succeeds and `Invoke` applies each node's step function in
edge order to the threaded state, returning the final state with no error. -/
theorem Invoke_linear_chain {T : Type} (n₀ : String) (f₀ : T → T)
    (rest : List (String × (T → T))) (input : T)
    (hnd : (((n₀, f₀) :: rest).map Prod.fst).Nodup)
    (hEND : END ∉ ((n₀, f₀) :: rest).map Prod.fst)
    (h0 : n₀ ≠ "") :
    Compile (chainGraph n₀ f₀ rest) = Except.ok (Runnable.mk (chainGraph n₀ f₀ rest)) ∧
    Invoke (Runnable.mk (chainGraph n₀ f₀ rest)) (rest.length + 2) input =
      some (((n₀, f₀) :: rest).foldl (fun s p => p.2 s) input, none) := by
  constructor
  · simp [Compile, chainGraph_entryPoint, h0]
  · exact invokeLoop_chainGraph n₀ f₀ rest hnd hEND rest [] n₀ f₀ input rfl

/-- Witness for C1, the concrete scenario of the test suite: `node1` appends
`"Node 1"`, `node2` appends `"Node 2"`, edges `node1→node2` and `node2→END`,
entry `node1`, input `["Input"]` gives `["Input", "Node 1", "Node 2"]` with
no error. -/
theorem Invoke_linear_chain_witness :
    Compile (chainGraph "node1" (fun s => s ++ ["Node 1"])
        [("node2", fun s => s ++ ["Node 2"])]) =
      Except.ok (Runnable.mk (chainGraph "node1" (fun s => s ++ ["Node 1"])
        [("node2", fun s => s ++ ["Node 2"])])) ∧
    Invoke (Runnable.mk (chainGraph "node1" (fun s => s ++ ["Node 1"])
        [("node2", fun s => s ++ ["Node 2"])])) 3 ["Input"] =
      some (["Input", "Node 1", "Node 2"], none) :=
  Invoke_linear_chain "node1" (fun s => s ++ ["Node 1"])
    [("node2", fun s => s ++ ["Node 2"])] ["Input"]
    (by decide) (by decide) (by decide)

end LangGraph
